import Mathlib

/-!
Verification development for the hybrid ranking pipeline of
`src/core/ranking_v2.py` (class `HybridRanker`).

The Python code is shallowly embedded: candidate dictionaries become the
`Candidate` structure, `ScoredPolicy` dataclasses become the `ScoredPolicy`
structure, floats become exact rationals, and Python's stable
`list.sort(key=..., reverse=True)` becomes a stable merge sort with a
descending comparison.  The three external effects of the pipeline are
passed in as an explicit environment (`RankEnv`):
  * the optional `rank_bm25` library (`HAS_BM25` plus the raw corpus scores
    returned by `BM25Okapi.get_scores`),
  * the LLM verifier transport (modelled by the list of labels extracted
    from the response text, or `none` when the call fails in any way or no
    JSON array can be extracted; a non-string JSON entry compares unequal
    to "A"/"B"/"C" exactly like an unrecognised string label, so
    `List String` loses no behaviour),
  * the wall clock `datetime.now()` (modelled by the current civil day
    number, which is exactly what `(datetime.now() - date).days` consumes
    for midnight-anchored parsed dates).
Everything else is translated directly from the source.

Rational arithmetic: the library's `Rat.add`, `Rat.mul`, `Rat.inv` and
decimal literals are irreducible, so the embedding computes with the
kernel-reducible equivalents `qAdd`, `qMul`, `qDiv` (built on `mkRat`) and
fraction constants; the bridge lemmas `qAdd_eq`, `qMul_eq`, `qDiv_eq`
prove them equal to `+`, `*`, `/`, so every score below is the exact
rational the Python expression denotes.
-/

namespace PolicyAnalyzer

/-- Kernel-computable addition on `ℚ` (equal to `+` by `qAdd_eq`). -/
def qAdd (a b : ℚ) : ℚ := mkRat (a.num * b.den + b.num * a.den) (a.den * b.den)

/-- Kernel-computable multiplication on `ℚ` (equal to `*` by `qMul_eq`). -/
def qMul (a b : ℚ) : ℚ := mkRat (a.num * b.num) (a.den * b.den)

/-- Kernel-computable inverse on `ℚ` (equal to `⁻¹` by `qInv_eq`). -/
def qInv (a : ℚ) : ℚ :=
  if a.num < 0 then mkRat (-(a.den : ℤ)) a.num.natAbs
  else mkRat (a.den : ℤ) a.num.natAbs

/-- Kernel-computable division on `ℚ` (equal to `/` by `qDiv_eq`). -/
def qDiv (a b : ℚ) : ℚ := qMul a (qInv b)

/-- Kernel-computable subtraction on `ℚ` (equal to `-` by `qSub_eq`). -/
def qSub (a b : ℚ) : ℚ := qAdd a (-b)

/-- Model of one raw search-hit dictionary.  The code reads the keys
`title`, `link`, `snippet`, `source`, `date` (each defaulted to the empty
string via `.get(..., "")` when absent, which the total fields mirror). -/
structure Candidate where
  title : String
  link : String
  snippet : String
  source : String
  date : String
deriving DecidableEq

/-- Model of the `ScoredPolicy` dataclass of `ranking_v2.py` (a candidate
plus its per-dimension scores, all defaulted to `0.0`). -/
structure ScoredPolicy where
  policy : Candidate
  authority_score : ℚ := 0
  bm25_score : ℚ := 0
  semantic_score : ℚ := 0
  recency_score : ℚ := 0
  final_score : ℚ := 0
deriving DecidableEq

/-- Python's `pat in s` substring test, on the character list of `s`. -/
def strContainsAux (pat : List Char) : List Char → Bool
  | [] => pat.isEmpty
  | c :: rest =>
    pat.isPrefixOf (c :: rest) || strContainsAux pat rest

/-- Python's `pat in s` for strings. -/
def strContains (s pat : String) : Bool :=
  strContainsAux pat.data s.data

/-- Python's `str.lower()`.  Per-character lowering; identical to CPython
on the ASCII/CJK alphabet the repository's data uses. -/
def toLowerStr (s : String) : String := String.mk (s.data.map Char.toLower)

/-- The `AUTHORITY_LEVELS` class attribute (an insertion-ordered dict,
modelled as the ordered association list). -/
def AUTHORITY_LEVELS : List (ℕ × List String) :=
  [(1, ["国务院", "中央", "全国人大", "国家发改委", "财政部"]),
   (2, ["证监会", "银保监会", "央行", "中国人民银行", "国家金融监督管理总局"]),
   (3, ["交易所", "上交所", "深交所", "北交所", "中登", "中国结算"]),
   (4, ["证券业协会", "基金业协会", "期货业协会"]),
   (5, ["地方金融局", "地方证监局"]),
   (6, ["券商", "证券公司", "银行", "保险公司"]),
   (7, ["财经媒体", "第一财经", "财新", "证券时报", "中国证券报"]),
   (8, ["门户网站", "新浪", "网易", "搜狐", "百度"])]

/-- The `GOV_DOMAINS` class attribute. -/
def GOV_DOMAINS : List String :=
  [".gov.cn", ".org.cn", "csrc.gov.cn", "sse.com.cn",
   "szse.cn", "pbc.gov.cn", "nafmii.org.cn", "amac.org.cn",
   "circ.gov.cn", "mof.gov.cn", "ndrc.gov.cn"]

/-- The `URL_LAW_PATTERNS` class attribute. -/
def URL_LAW_PATTERNS : List String :=
  ["/law/", "/rule/", "/self_reg/", "/regulatory/", "/zcfg/", "/standard/"]

/-- The `URL_DISCLOSURE_PATTERNS` class attribute. -/
def URL_DISCLOSURE_PATTERNS : List String :=
  ["/disclosure/", "/listing/", "/announcement/", "/report/", "/prospectus/", "/static/"]

/-- The `NEWS_DOMAINS` class attribute. -/
def NEWS_DOMAINS : List String :=
  ["eastmoney.com", "hexun.com", "10jqka.com.cn", "cnstock.com",
   "yicai.com", "caixin.com", "wallstreetcn.com", "cls.cn"]

/-- The `NOISE_KEYWORDS` class attribute. -/
def NOISE_KEYWORDS : List String :=
  ["系统", "登录", "登入", "注册", "报考", "培训", "考试", "报名",
   "下载中心", "工作门户", "管理平台", "网上信息系统", "人员管理系统",
   "招股书", "招股说明书", "招募说明书", "中报", "年报", "季报",
   "上市公告书", "分红公告", "业绩快报"]

/-- The inline critical-noise list of `_calc_authority`
(`["系统", "登录", "报考", "考试"]`): the keywords whose veto is *not*
waived on high-authority domains. -/
def CRITICAL_NOISE : List String := ["系统", "登录", "报考", "考试"]

/-- The inline exchange-domain list of `_calc_authority`
(`["sse.com.cn", "szse.cn", "bse.cn"]`). -/
def EXCHANGE_DOMAINS : List String := ["sse.com.cn", "szse.cn", "bse.cn"]

/-- Line 249: `is_high_auth_domain = ".gov.cn" in link or ".org.cn" in link`
(note: on the raw, un-lowercased link, as in the source). -/
def isHighAuthDomain (link : String) : Bool :=
  strContains link ".gov.cn" || strContains link ".org.cn"

/-- The noise-veto loop of `_calc_authority` (lines 251-256): some noise
keyword occurs in the lowercased `title snippet` text and the waiver
(high-authority domain and a non-critical keyword) does not apply. -/
def noiseVetoed (p : Candidate) : Bool :=
  let combinedText := toLowerStr (p.title ++ " " ++ p.snippet)
  NOISE_KEYWORDS.any fun kw =>
    strContains combinedText (toLowerStr kw) &&
      !(isHighAuthDomain p.link && !(CRITICAL_NOISE.contains kw))

/-- The domain base score of `_calc_authority` (lines 259-265), checked on
the raw link exactly as in the source; `0.9` / `0.85` / `0.7`. -/
def domainBase (link : String) : ℚ :=
  if strContains link ".gov.cn" then mkRat 9 10
  else if strContains link ".org.cn" then mkRat 17 20
  else if EXCHANGE_DOMAINS.any (fun d => strContains link d) then mkRat 7 10
  else 0

/-- The URL-path adjustment of `_calc_authority` (lines 267-275): a law-path
bonus `+0.1` capped at 1, then a disclosure-path override down to `0.1`. -/
def pathAdjusted (link : String) (base : ℚ) : ℚ :=
  let base :=
    if URL_LAW_PATTERNS.any (fun pat => strContains (toLowerStr link) pat) then
      min 1 (qAdd base (mkRat 1 10))
    else base
  if URL_DISCLOSURE_PATTERNS.any (fun pat => strContains (toLowerStr link) pat) then mkRat 1 10
  else base

/-- The keyword-tier scan of `_calc_authority` (lines 278-281): the first
level (in dict order) one of whose keywords occurs in the lowercased
`source link` text. -/
def findTier (combined : String) : Option (ℕ × List String) :=
  AUTHORITY_LEVELS.find? fun lv => lv.2.any fun kw => strContains combined (toLowerStr kw)

/-- The tier score `1.0 - (level - 1) * 0.125` of line 281. -/
def tierScore (level : ℕ) : ℚ := qSub 1 (qMul (qSub (level : ℚ) 1) (mkRat 1 8))

/-- `HybridRanker._calc_authority` (lines 239-288). -/
def calcAuthority (p : Candidate) : ℚ :=
  let combined := toLowerStr (p.source ++ " " ++ p.link)
  if noiseVetoed p then 0
  else if 0 < domainBase p.link then pathAdjusted p.link (domainBase p.link)
  else
    match findTier combined with
    | some lv => tierScore lv.1
    | none =>
      if NEWS_DOMAINS.any (fun d => strContains (toLowerStr p.link) d) then mkRat 1 10
      else mkRat 3 10

/-- `HybridRanker._filter_official` (lines 217-237). -/
def filterOfficial (policies : List Candidate) : List Candidate :=
  let filtered := policies.filter fun p =>
    let link := toLowerStr p.link
    let source := toLowerStr p.source
    let isGov := GOV_DOMAINS.any fun d => strContains link d
    let isOfficialSource :=
      (AUTHORITY_LEVELS.take 5).any fun lv => lv.2.any fun kw => strContains source kw
    isGov || isOfficialSource
  if filtered.isEmpty then policies else filtered

/-- CJK unified ideograph test, Python's regex class `[一-鿿]`. -/
def isCJKChar (c : Char) : Bool := 0x4e00 ≤ c.toNat && c.toNat ≤ 0x9fff

/-- Python's regex word class `\w` as it applies to the repository's data
(ASCII alphanumerics, underscore, CJK ideographs). -/
def isWordChar (c : Char) : Bool := c.isAlphanum || c == '_' || isCJKChar c

/-- Line 386: `re.sub(r'[^\w\s]', ' ', text)`. -/
def stripPunct (s : String) : String :=
  String.mk (s.data.map fun c => if isWordChar c || c.isWhitespace then c else ' ')

/-- Python's `str.split()` (split on whitespace runs, dropping empties),
written on the character list so it computes in the kernel. -/
def splitWordsAux : List Char → List Char → List String
  | [], acc => if acc.isEmpty then [] else [String.mk acc.reverse]
  | c :: rest, acc =>
    if c.isWhitespace then
      if acc.isEmpty then splitWordsAux rest []
      else String.mk acc.reverse :: splitWordsAux rest []
    else splitWordsAux rest (c :: acc)

/-- Python's `str.split()` for strings. -/
def splitWords (s : String) : List String := splitWordsAux s.data []

/-- `HybridRanker._tokenize` (lines 383-395): strip punctuation, split on
whitespace, split all-CJK words into single characters, lower-case the
rest. -/
def tokenize (text : String) : List String :=
  (splitWords (stripPunct text)).flatMap fun w =>
    if w.data.all isCJKChar then w.data.map (fun c => String.mk [c])
    else [toLowerStr w]

/-- The Jaccard similarity of `_calc_semantic_scores` (lines 317-337):
`|q ∩ t| / |q ∪ t|` on token sets, `0` if either set is empty. -/
def jaccardSim (query text : String) : ℚ :=
  let queryTokens := (tokenize query).dedup
  let textTokens := (tokenize text).dedup
  if queryTokens.isEmpty || textTokens.isEmpty then 0
  else
    let inter := (queryTokens.filter fun t => textTokens.contains t).length
    let union := ((queryTokens ++ textTokens).dedup).length
    if 0 < union then qDiv (inter : ℚ) (union : ℚ) else 0

/-- Gregorian leap year, as `datetime` implements it. -/
def isLeapYear (y : ℕ) : Bool := (y % 4 == 0 && y % 100 != 0) || y % 400 == 0

/-- Days in a month of the proleptic Gregorian calendar. -/
def daysInMonth (y m : ℕ) : ℕ :=
  if m == 2 then (if isLeapYear y then 29 else 28)
  else if m == 4 || m == 6 || m == 9 || m == 11 then 30
  else 31

/-- The calendar validation `datetime.strptime` performs on a parsed
year/month/day triple. -/
def validYMD (y m d : ℕ) : Bool :=
  1 ≤ y && y ≤ 9999 && 1 ≤ m && m ≤ 12 && 1 ≤ d && d ≤ daysInMonth y m

/-- Civil day number (days since 1970-01-01) of a proleptic Gregorian date
with `y ≥ 1`; this is exactly `(datetime(y,m,d) - datetime(1970,1,1)).days`. -/
def daysFromCivil (y m d : ℕ) : ℤ :=
  let yAdj : ℕ := if m ≤ 2 then y - 1 else y
  let era : ℕ := yAdj / 400
  let yoe : ℕ := yAdj - era * 400
  let mp : ℕ := (m + 9) % 12
  let doy : ℕ := (153 * mp + 2) / 5 + d - 1
  let doe : ℕ := yoe * 365 + yoe / 4 - yoe / 100 + doy
  (era * 146097 + doe : ℤ) - 719468

/-- The `%Y` field of `strptime` (CPython's format regex matches exactly
four digits). -/
def parseYearField (s : String) : Option ℕ :=
  if s.length = 4 then s.toNat? else none

/-- A `%m`/`%d` field of `strptime`: at most `maxLen` (two) digits, the
value range being checked by `validYMD`. -/
def parseField (maxLen : ℕ) (s : String) : Option ℕ :=
  if s.length ≤ maxLen then s.toNat? else none

/-- A year/month/day triple of `strptime` digit fields (`%Y` exactly four
digits, `%m`/`%d` one or two), calendar-validated; returns the civil day
number. -/
def parseYMDParts (ys ms ds : String) : Option ℤ :=
  match parseYearField ys, parseField 2 ms, parseField 2 ds with
  | some y, some m, some d => if validYMD y m d then some (daysFromCivil y m d) else none
  | _, _, _ => none

/-- `strptime` with format `%Y-%m-%d` or `%Y/%m/%d` (the separator is the
argument). -/
def parseSepFormat (s sep : String) : Option ℤ :=
  match s.splitOn sep with
  | [ys, ms, ds] => parseYMDParts ys ms ds
  | _ => none

/-- `strptime` with format `%Y年%m月%d日`. -/
def parseCnFull (s : String) : Option ℤ :=
  match s.splitOn "年" with
  | [ys, rest] =>
    match rest.splitOn "月" with
    | [ms, rest2] =>
      match rest2.splitOn "日" with
      | [ds, tail] => if tail = "" then parseYMDParts ys ms ds else none
      | _ => none
    | _ => none
  | _ => none

/-- `strptime` with format `%Y年%m月` (day defaults to 1). -/
def parseCnYM (s : String) : Option ℤ :=
  match s.splitOn "年" with
  | [ys, rest] =>
    match rest.splitOn "月" with
    | [ms, tail] => if tail = "" then parseYMDParts ys ms "1" else none
    | _ => none
  | _ => none

/-- The fallback `re.search(r"(\d{4})", date_str)` of lines 357-359: the
first run of four consecutive digits. -/
def firstFourDigitRun : List Char → Option ℕ
  | [] => none
  | c :: rest =>
    match rest with
    | c2 :: c3 :: c4 :: _ =>
      if c.isDigit && c2.isDigit && c3.isDigit && c4.isDigit then
        some ((c.toNat - 48) * 1000 + (c2.toNat - 48) * 100 +
          (c3.toNat - 48) * 10 + (c4.toNat - 48))
      else firstFourDigitRun rest
    | _ => none

/-- The date-parsing cascade of `_calc_recency` (lines 347-361): the four
`strptime` formats in order, then the bare-year fallback anchored at
June 15 (`datetime(year, 6, 15)`); `none` models every path that ends in
the neutral default. -/
def parseDate (s : String) : Option ℤ :=
  match parseCnFull s with
  | some d => some d
  | none =>
    match parseSepFormat s "-" with
    | some d => some d
    | none =>
      match parseSepFormat s "/" with
      | some d => some d
      | none =>
        match parseCnYM s with
        | some d => some d
        | none =>
          match firstFourDigitRun s.data with
          | some y => if 1 ≤ y then some (daysFromCivil y 6 15) else none
          | none => none

/-- `HybridRanker._calc_recency` (lines 339-381).  `nowDay` is the civil
day number of `datetime.now()`; since parsed dates are midnight-anchored,
`(datetime.now() - date).days = nowDay - dateDay` exactly. -/
def calcRecency (nowDay : ℤ) (p : Candidate) : ℚ :=
  if p.date = "" then mkRat 3 10
  else
    match parseDate p.date with
    | none => mkRat 3 10
    | some dd =>
      let daysAgo := nowDay - dd
      if daysAgo ≤ 30 then 1
      else if daysAgo ≤ 90 then mkRat 9 10
      else if daysAgo ≤ 180 then mkRat 8 10
      else if daysAgo ≤ 365 then mkRat 6 10
      else if daysAgo ≤ 730 then mkRat 4 10
      else mkRat 2 10

/-- The per-candidate assignment loop of `_calc_bm25_scores` (lines
314-315): each candidate in order receives its (already normalized) score.
The external library guarantees one score per corpus entry. -/
def applyBm25 : List ℚ → List ScoredPolicy → List ScoredPolicy
  | _, [] => []
  | [], sps => sps
  | sc :: rest, sp :: sps => { sp with bm25_score := sc } :: applyBm25 rest sps

/-- `HybridRanker._calc_bm25_scores` (lines 290-315) given the raw scores
the `BM25Okapi` index returned: normalize by the corpus maximum when it is
positive, else divide by 1. -/
def calcBm25Scores (raw : List ℚ) (sps : List ScoredPolicy) : List ScoredPolicy :=
  let mx := raw.foldl max 0
  let m := if 0 < mx then mx else 1
  applyBm25 (raw.map fun sc => qDiv sc m) sps

/-- The per-label effect of `_llm_verify_policy` (lines 434-445): `B`
(company disclosure) zeroes authority and final score, `C` (news/noise)
multiplies the final score by 0.3, `A` (policy original) multiplies it by
1.2 capped at 1.0, anything else changes nothing. -/
def applyLabel (label : String) (sp : ScoredPolicy) : ScoredPolicy :=
  if label = "B" then { sp with authority_score := 0, final_score := 0 }
  else if label = "C" then { sp with final_score := qMul sp.final_score (mkRat 3 10) }
  else if label = "A" then { sp with final_score := min 1 (qMul sp.final_score (mkRat 12 10)) }
  else sp

/-- The `enumerate(labels)` loop of `_llm_verify_policy`: label `i` is
applied to candidate `i`; extra labels are ignored (`if i < len(...)`),
unlabelled candidates keep their scores. -/
def applyLabels : List String → List ScoredPolicy → List ScoredPolicy
  | _, [] => []
  | [], sps => sps
  | l :: ls, sp :: sps => applyLabel l sp :: applyLabels ls sps

/-- `HybridRanker._llm_verify_policy` (lines 397-448) as a function of the
labels extracted from the LLM response; `none` covers every failure path
(exception, no JSON-array match), which leaves all scores unchanged. -/
def llmVerifyPolicy (labels : Option (List String)) (cands : List ScoredPolicy) :
    List ScoredPolicy :=
  match labels with
  | none => cands
  | some ls => applyLabels ls cands

/-- Python's `round(x, 3)`: round half to even at the third decimal
(floats modelled as the exact rationals they denote). -/
def roundHalfEven (q : ℚ) : ℤ :=
  let n := ⌊q⌋
  if qSub q (n : ℚ) < mkRat 1 2 then n
  else if mkRat 1 2 < qSub q (n : ℚ) then n + 1
  else if n % 2 = 0 then n else n + 1

/-- `round(·, 3)` on a score. -/
def round3 (q : ℚ) : ℚ := qDiv ((roundHalfEven (qMul q 1000) : ℤ) : ℚ) 1000

/-- One value of the `_scores` dict (floats and the backfill note). -/
inductive ScoreVal where
  | num (q : ℚ)
  | str (s : String)
deriving DecidableEq

/-- The `_scores` dict: an ordered association list, exactly the keys the
code writes. -/
abbrev ScoreDict := List (String × ScoreVal)

/-- One element of the list `rank` returns: the copied candidate dict plus
its added `_scores` breakdown. -/
structure RankedEntry where
  policy : Candidate
  scores : ScoreDict
deriving DecidableEq

/-- The environment of one `rank` call: the optional BM25 library's raw
scores, the labels recovered from the LLM verifier (or `none` on any
failure), and the current civil day number. -/
structure RankEnv where
  bm25 : Option (List ℚ)
  labels : Option (List String)
  nowDay : ℤ

/-- The `HybridRanker` object: its only data is the weights dict stored by
`__init__` (the LLM client handle is part of the environment). -/
structure HybridRanker where
  weights : List (String × ℚ)
deriving DecidableEq

/-- The default weights of `__init__` (lines 100-105):
authority 0.45, bm25 0.25, semantic 0.20, recency 0.10. -/
def defaultWeights : List (String × ℚ) :=
  [("authority", mkRat 45 100), ("bm25", mkRat 25 100),
   ("semantic", mkRat 20 100), ("recency", mkRat 10 100)]

/-- `HybridRanker.__init__`: `self.weights = weights or {...}` (a missing
or empty dict falls back to the default). -/
def mkHybridRanker (weights : Option (List (String × ℚ))) : HybridRanker :=
  { weights :=
      match weights with
      | some w => if w.isEmpty then defaultWeights else w
      | none => defaultWeights }

/-- The descending-by-final-score total preorder the pipeline sorts by. -/
def finalGE (a b : ScoredPolicy) : Prop := b.final_score ≤ a.final_score

instance : DecidableRel finalGE := fun a b =>
  inferInstanceAs (Decidable (b.final_score ≤ a.final_score))

instance : IsTotal ScoredPolicy finalGE := ⟨fun a b => le_total b.final_score a.final_score⟩

instance : IsTrans ScoredPolicy finalGE := ⟨fun _ _ _ h1 h2 => le_trans h2 h1⟩

/-- Python's stable `list.sort(key=lambda x: x.final_score, reverse=True)`.
Any stable sort computes the same list; a structurally recursive stable
insertion sort stands in for CPython's timsort. -/
def sortByFinalDesc (sps : List ScoredPolicy) : List ScoredPolicy :=
  sps.insertionSort finalGE

/-- Line 134: `sp.authority_score = self._calc_authority(sp.policy)`. -/
def setAuthority (sp : ScoredPolicy) : ScoredPolicy :=
  { sp with authority_score := calcAuthority sp.policy }

/-- The per-candidate body of `_calc_semantic_scores`. -/
def setSemantic (query : String) (sp : ScoredPolicy) : ScoredPolicy :=
  { sp with semantic_score := jaccardSim query (sp.policy.title ++ " " ++ sp.policy.snippet) }

/-- Line 145: `sp.recency_score = self._calc_recency(sp.policy)`. -/
def setRecency (nowDay : ℤ) (sp : ScoredPolicy) : ScoredPolicy :=
  { sp with recency_score := calcRecency nowDay sp.policy }

/-- Lines 149-151: the stage-1 blend
`final = 0.7 * (bm25 + semantic) / 2 + 0.3 * recency`. -/
def setStage1Final (sp : ScoredPolicy) : ScoredPolicy :=
  let relevance := qDiv (qAdd sp.bm25_score sp.semantic_score) 2
  { sp with final_score := qAdd (qMul (mkRat 7 10) relevance) (qMul (mkRat 3 10) sp.recency_score) }

/-- Steps 1-3 of `rank` (lines 129-151): wrap each policy, score every
dimension, and blend stage-1 finals. -/
def scoreStage (env : RankEnv) (query : String) (policies : List Candidate) :
    List ScoredPolicy :=
  let scored := policies.map fun p => ({ policy := p } : ScoredPolicy)
  let scored := scored.map setAuthority
  let scored :=
    match env.bm25 with
    | some raw => calcBm25Scores raw scored
    | none => scored
  let scored := scored.map (setSemantic query)
  let scored := scored.map (setRecency env.nowDay)
  scored.map setStage1Final

/-- The stage-2 title bonus (lines 162-169): `0.2` if a query longer than
4 characters occurs in the title, else `0.1` if a query word longer than 2
characters does. -/
def titleBonus (query : String) (p : Candidate) : ℚ :=
  let title := toLowerStr p.title
  if 4 < query.length && strContains title (toLowerStr query) then mkRat 2 10
  else if (splitWords query).any (fun kw => 2 < kw.length && strContains title (toLowerStr kw))
    then mkRat 1 10
  else 0

/-- The stage-2 rescore (line 171):
`final = 0.6 * (authority + bonus) + 0.4 * final`. -/
def stage2Rescore (query : String) (sp : ScoredPolicy) : ScoredPolicy :=
  let boosted := qAdd sp.authority_score (titleBonus query sp.policy)
  { sp with final_score := qAdd (qMul (mkRat 6 10) boosted) (qMul (mkRat 4 10) sp.final_score) }

/-- The funnel (lines 153-156): sort all candidates descending by the
stage-1 blended score and keep the top 15. -/
def funnelPool (env : RankEnv) (query : String) (pool : List Candidate) :
    List ScoredPolicy :=
  (sortByFinalDesc (scoreStage env query pool)).take 15

/-- Steps 1-5 of `rank` (lines 125-178): the candidate pool right before
result assembly — optional official filter, full scoring, stage-1 sort,
funnel truncation to 15, stage-2 rescore and sort, LLM verification of the
top 8, final sort. -/
def rankCandidates (env : RankEnv) (policies : List Candidate) (query : String)
    (filterOfficialOnly : Bool) : List ScoredPolicy :=
  let pool := if filterOfficialOnly then filterOfficial policies else policies
  let candidates := (funnelPool env query pool).map (stage2Rescore query)
  let candidates := sortByFinalDesc candidates
  let candidates := llmVerifyPolicy env.labels (candidates.take 8) ++ candidates.drop 8
  sortByFinalDesc candidates

/-- The same pipeline with the LLM verification stage removed (the line
178 re-sort still runs, as it does on the exception path).  Comparison
definition for the verifier fault-tolerance property. -/
def rankCandidatesUnverified (env : RankEnv) (policies : List Candidate) (query : String)
    (filterOfficialOnly : Bool) : List ScoredPolicy :=
  let pool := if filterOfficialOnly then filterOfficial policies else policies
  let candidates := (funnelPool env query pool).map (stage2Rescore query)
  let candidates := sortByFinalDesc candidates
  sortByFinalDesc candidates

/-- The `_scores` dict written for a normally assembled entry (lines
192-197). -/
def mkMainEntry (sp : ScoredPolicy) : RankedEntry :=
  { policy := sp.policy,
    scores := [("authority", ScoreVal.num (round3 sp.authority_score)),
               ("relevance", ScoreVal.num (round3 (qDiv (qAdd sp.bm25_score sp.semantic_score) 2))),
               ("recency", ScoreVal.num (round3 sp.recency_score)),
               ("final", ScoreVal.num (round3 sp.final_score))] }

/-- One iteration of the step-6 assembly loop (lines 182-198): drop vetoed
or below-floor candidates, apply the authority filter once five results
exist, else append the copied policy with its breakdown. -/
def assembleStep (result : List RankedEntry) (sp : ScoredPolicy) : List RankedEntry :=
  if sp.authority_score ≤ 0 ∨ sp.final_score ≤ mkRat 1 20 then result
  else if 5 ≤ result.length ∧ sp.authority_score < mkRat 1 4 then result
  else result ++ [mkMainEntry sp]

/-- The step-6 assembly loop over the sorted candidate pool. -/
def assembleMain (candidates : List ScoredPolicy) : List RankedEntry :=
  candidates.foldl assembleStep []

/-- The `_scores` dict written for a backfilled entry (lines 208-212). -/
def mkBackfillEntry (sp : ScoredPolicy) : RankedEntry :=
  { policy := sp.policy,
    scores := [("authority", ScoreVal.num (round3 sp.authority_score)),
               ("final", ScoreVal.num (round3 sp.final_score)),
               ("note", ScoreVal.str "backfill")] }

/-- The backfill loop (lines 203-213).  `seen` is the set of links already
in the result, computed once before the loop and — exactly as in the
source — never extended inside it. -/
def backfillLoop (seen : List String) : List ScoredPolicy → List RankedEntry → List RankedEntry
  | [], result => result
  | sp :: rest, result =>
    if 5 ≤ result.length then result
    else if seen.contains sp.policy.link then backfillLoop seen rest result
    else backfillLoop seen rest (result ++ [mkBackfillEntry sp])

/-- The backfill stage (lines 200-213): only runs when fewer than five
results survived and the pool has more candidates than results. -/
def backfill (candidates : List ScoredPolicy) (result : List RankedEntry) :
    List RankedEntry :=
  if result.length < 5 ∧ result.length < candidates.length then
    backfillLoop (result.map fun e => e.policy.link) candidates result
  else result

/-- `HybridRanker.rank` (lines 115-215).  The `temperature` argument only
parametrizes the external LLM call, whose outcome `env.labels` already
abstracts; the stored weights are carried by `r`. -/
def HybridRanker.rank (r : HybridRanker) (env : RankEnv) (policies : List Candidate)
    (query : String) (filterOfficialOnly : Bool) : List RankedEntry :=
  if policies.isEmpty then []
  else
    let candidates := rankCandidates env policies query filterOfficialOnly
    backfill candidates (assembleMain candidates)

/-- `rank` with the verification stage removed: comparison pipeline for
the verifier fault-tolerance property. -/
def HybridRanker.rankUnverified (r : HybridRanker) (env : RankEnv)
    (policies : List Candidate) (query : String) (filterOfficialOnly : Bool) :
    List RankedEntry :=
  if policies.isEmpty then []
  else
    let candidates := rankCandidatesUnverified env policies query filterOfficialOnly
    backfill candidates (assembleMain candidates)

/-- Every value `_calc_authority` can return: the vetoed zero, the three
domain bases and their path adjustments, the eight tier scores, the news
score and the default. -/
def AUTH_VALUES : List ℚ :=
  [0, mkRat 9 10, mkRat 17 20, mkRat 7 10,
   1, mkRat 19 20, mkRat 4 5, mkRat 1 10,
   tierScore 1, tierScore 2, tierScore 3, tierScore 4,
   tierScore 5, tierScore 6, tierScore 7, tierScore 8,
   mkRat 3 10]

/-- The links of a scored list (identity key of the dedup logic). -/
def spLinks (l : List ScoredPolicy) : List String := l.map fun sp => sp.policy.link

/-! ### Concrete fixtures -/

/-- Fixture: environment with no BM25 library, a failed verifier call, and
day number 0. -/
def testEnv : RankEnv := { bm25 := none, labels := none, nowDay := 0 }

/-- Fixture: the ranker built with default weights. -/
def defaultRanker : HybridRanker := mkHybridRanker none

/-- Fixture: a ranker built with an alternative weights dict (all 0.25). -/
def equalWeightsRanker : HybridRanker :=
  mkHybridRanker (some [("authority", mkRat 1 4), ("bm25", mkRat 1 4),
    ("semantic", mkRat 1 4), ("recency", mkRat 1 4)])

/-- Fixture: a clean government regulation hit. -/
def govCandidate : Candidate :=
  { title := "t", link := "https://a.gov.cn/law/x", snippet := "s", source := "", date := "" }

/-- Fixture: a prospectus-noise hit (vetoed: snippet contains 招股书) at a
given link. -/
def noisyCandidate (link : String) : Candidate :=
  { title := "t", link := link, snippet := "招股书", source := "", date := "" }

/-- Fixture: five all-vetoed candidates with pairwise distinct links. -/
def noisyPolicies : List Candidate :=
  [noisyCandidate "http://x1.com/a", noisyCandidate "http://x2.com/a",
   noisyCandidate "http://x3.com/a", noisyCandidate "http://x4.com/a",
   noisyCandidate "http://x5.com/a"]

/-- Fixture: six all-vetoed candidates with five distinct links (the first
link occurs twice). -/
def dupPolicies : List Candidate :=
  [noisyCandidate "http://dup.com/a", noisyCandidate "http://dup.com/a",
   noisyCandidate "http://x2.com/a", noisyCandidate "http://x3.com/a",
   noisyCandidate "http://x4.com/a", noisyCandidate "http://x5.com/a"]

/-- Fixture: a government-domain candidate whose source label is a tier-1
institution. -/
def c8Gov : Candidate :=
  { title := "t", link := "https://x.gov.cn/a", snippet := "s", source := "国务院", date := "" }

/-- Fixture: the same candidate on a news domain. -/
def c8News : Candidate :=
  { title := "t", link := "https://eastmoney.com/a", snippet := "s", source := "国务院",
    date := "" }

/-- Fixture: a scored candidate as it reaches the verifier (authority 0.9,
final score 0.8). -/
def spB : ScoredPolicy :=
  { policy := govCandidate, authority_score := mkRat 9 10, final_score := mkRat 4 5 }

/-! ## Theorems -/

theorem qAdd_eq (a b : ℚ) : qAdd a b = a + b := by
  rw [qAdd, Rat.mkRat_eq_div]
  push_cast
  conv_rhs => rw [← Rat.num_div_den a, ← Rat.num_div_den b]
  rw [div_add_div _ _ (by exact_mod_cast a.den_nz) (by exact_mod_cast b.den_nz)]
  ring_nf

theorem qMul_eq (a b : ℚ) : qMul a b = a * b := by
  rw [qMul, Rat.mkRat_eq_div]
  push_cast
  conv_rhs => rw [← Rat.num_div_den a, ← Rat.num_div_den b]
  rw [div_mul_div_comm]

theorem qInv_eq (a : ℚ) : qInv a = a⁻¹ := by
  have hinv : a⁻¹ = (a.den : ℚ) / (a.num : ℚ) := by
    conv_lhs => rw [← Rat.num_div_den a]
    rw [inv_div]
  rw [hinv, qInv]
  rcases lt_trichotomy a.num 0 with h | h | h
  · rw [if_pos h, Rat.mkRat_eq_div]
    push_cast [Int.cast_natAbs]
    rw [abs_of_neg (show (a.num : ℚ) < 0 by exact_mod_cast h)]
    rw [neg_div_neg_eq]
  · rw [if_neg (by omega), Rat.mkRat_eq_div, h]
    norm_num
  · rw [if_neg (by omega), Rat.mkRat_eq_div]
    push_cast [Int.cast_natAbs]
    rw [abs_of_pos (show (0 : ℚ) < a.num by exact_mod_cast h)]

theorem qDiv_eq (a b : ℚ) : qDiv a b = a / b := by
  rw [qDiv, qMul_eq, qInv_eq, div_eq_mul_inv]

theorem qSub_eq (a b : ℚ) : qSub a b = a - b := by
  rw [qSub, qAdd_eq, sub_eq_add_neg]

/-! ### Generic list facts -/

theorem subperm_nodup {α : Type} {l₁ l₂ : List α} (h : List.Subperm l₁ l₂) (h₂ : l₂.Nodup) :
    l₁.Nodup := by
  obtain ⟨l', hperm, hsub⟩ := h
  exact hperm.nodup (hsub.nodup h₂)

theorem nodup_length_le_of_subset {α : Type} [DecidableEq α] {l₁ l₂ : List α}
    (h : l₁.Nodup) (hs : l₁ ⊆ l₂) : l₁.length ≤ l₂.length := by
  have h1 : l₁.toFinset.card = l₁.length := List.toFinset_card_of_nodup h
  have h2 : l₁.toFinset ⊆ l₂.toFinset := by
    intro a ha
    rw [List.mem_toFinset] at *
    exact hs ha
  have h3 := Finset.card_le_card h2
  have h4 := List.toFinset_card_le l₂
  omega

/-! ### Per-stage facts -/

theorem applyLabel_policy (l : String) (sp : ScoredPolicy) :
    (applyLabel l sp).policy = sp.policy := by
  unfold applyLabel
  split <;> try rfl
  split <;> try rfl
  split <;> rfl

theorem applyLabel_authority (l : String) (sp : ScoredPolicy) :
    (applyLabel l sp).authority_score = sp.authority_score ∨
      (applyLabel l sp).authority_score = 0 := by
  unfold applyLabel
  split
  · exact Or.inr rfl
  · split
    · exact Or.inl rfl
    · split <;> exact Or.inl rfl

theorem applyLabels_policies (ls : List String) (sps : List ScoredPolicy) :
    (applyLabels ls sps).map (·.policy) = sps.map (·.policy) := by
  induction sps generalizing ls with
  | nil => cases ls <;> rfl
  | cons sp rest ih =>
    cases ls with
    | nil => rfl
    | cons l ls' => simp [applyLabels, applyLabel_policy, ih]

theorem mem_applyLabels {ls : List String} {sps : List ScoredPolicy} {sp : ScoredPolicy}
    (h : sp ∈ applyLabels ls sps) :
    ∃ sp' ∈ sps, sp.policy = sp'.policy ∧
      (sp.authority_score = sp'.authority_score ∨ sp.authority_score = 0) := by
  induction sps generalizing ls with
  | nil => cases ls <;> simp [applyLabels] at h
  | cons sp0 rest ih =>
    cases ls with
    | nil =>
      simp only [applyLabels] at h
      exact ⟨sp, h, rfl, Or.inl rfl⟩
    | cons l ls' =>
      simp only [applyLabels, List.mem_cons] at h
      rcases h with rfl | h
      · exact ⟨sp0, List.mem_cons_self _ _, applyLabel_policy l sp0,
          applyLabel_authority l sp0⟩
      · obtain ⟨sp', hm, hp, ha⟩ := ih h
        exact ⟨sp', List.mem_cons_of_mem _ hm, hp, ha⟩

theorem applyBm25_policies (raw : List ℚ) (sps : List ScoredPolicy) :
    (applyBm25 raw sps).map (·.policy) = sps.map (·.policy) := by
  induction sps generalizing raw with
  | nil => cases raw <;> rfl
  | cons sp rest ih =>
    cases raw with
    | nil => rfl
    | cons sc raw' => simp [applyBm25, ih]

theorem applyBm25_length (raw : List ℚ) (sps : List ScoredPolicy) :
    (applyBm25 raw sps).length = sps.length := by
  have := congrArg List.length (applyBm25_policies raw sps)
  simpa using this

theorem mem_applyBm25 {raw : List ℚ} {sps : List ScoredPolicy} {sp : ScoredPolicy}
    (h : sp ∈ applyBm25 raw sps) :
    ∃ sp' ∈ sps, sp.policy = sp'.policy ∧ sp.authority_score = sp'.authority_score := by
  induction sps generalizing raw with
  | nil => cases raw <;> simp [applyBm25] at h
  | cons sp0 rest ih =>
    cases raw with
    | nil =>
      simp only [applyBm25] at h
      exact ⟨sp, h, rfl, rfl⟩
    | cons sc raw' =>
      simp only [applyBm25, List.mem_cons] at h
      rcases h with rfl | h
      · exact ⟨sp0, List.mem_cons_self _ _, rfl, rfl⟩
      · obtain ⟨sp', hm, hp, ha⟩ := ih h
        exact ⟨sp', List.mem_cons_of_mem _ hm, hp, ha⟩

theorem calcBm25Scores_policies (raw : List ℚ) (sps : List ScoredPolicy) :
    (calcBm25Scores raw sps).map (·.policy) = sps.map (·.policy) := by
  unfold calcBm25Scores
  exact applyBm25_policies _ _

theorem mem_calcBm25Scores {raw : List ℚ} {sps : List ScoredPolicy} {sp : ScoredPolicy}
    (h : sp ∈ calcBm25Scores raw sps) :
    ∃ sp' ∈ sps, sp.policy = sp'.policy ∧ sp.authority_score = sp'.authority_score := by
  unfold calcBm25Scores at h
  exact mem_applyBm25 h

theorem setAuthority_policy (sp : ScoredPolicy) : (setAuthority sp).policy = sp.policy := rfl

theorem setSemantic_policy (query : String) (sp : ScoredPolicy) :
    (setSemantic query sp).policy = sp.policy := rfl

theorem setRecency_policy (nowDay : ℤ) (sp : ScoredPolicy) :
    (setRecency nowDay sp).policy = sp.policy := rfl

theorem setStage1Final_policy (sp : ScoredPolicy) : (setStage1Final sp).policy = sp.policy := rfl

theorem stage2Rescore_policy (query : String) (sp : ScoredPolicy) :
    (stage2Rescore query sp).policy = sp.policy := rfl

theorem map_policy_comp {f : ScoredPolicy → ScoredPolicy}
    (hf : ∀ sp, (f sp).policy = sp.policy) (l : List ScoredPolicy) :
    (l.map f).map (·.policy) = l.map (·.policy) := by
  rw [List.map_map]
  exact List.map_congr_left fun sp _ => hf sp

theorem scoreStage_policies (env : RankEnv) (query : String) (pool : List Candidate) :
    (scoreStage env query pool).map (·.policy) = pool := by
  simp only [scoreStage]
  cases env.bm25 with
  | none =>
    rw [map_policy_comp setStage1Final_policy, map_policy_comp (setRecency_policy env.nowDay),
      map_policy_comp (setSemantic_policy query), map_policy_comp setAuthority_policy,
      List.map_map]
    exact (List.map_congr_left fun p _ => rfl).trans (List.map_id _)
  | some raw =>
    rw [map_policy_comp setStage1Final_policy, map_policy_comp (setRecency_policy env.nowDay),
      map_policy_comp (setSemantic_policy query), calcBm25Scores_policies,
      map_policy_comp setAuthority_policy, List.map_map]
    exact (List.map_congr_left fun p _ => rfl).trans (List.map_id _)

theorem scoreStage_length (env : RankEnv) (query : String) (pool : List Candidate) :
    (scoreStage env query pool).length = pool.length := by
  have := congrArg List.length (scoreStage_policies env query pool)
  simpa using this

theorem mem_scoreStage {env : RankEnv} {query : String} {pool : List Candidate}
    {sp : ScoredPolicy} (h : sp ∈ scoreStage env query pool) :
    sp.policy ∈ pool ∧ sp.authority_score = calcAuthority sp.policy ∧
      sp.final_score = qAdd (qMul (mkRat 7 10) (qDiv (qAdd sp.bm25_score sp.semantic_score) 2))
        (qMul (mkRat 3 10) sp.recency_score) := by
  simp only [scoreStage] at h
  obtain ⟨sp5, h5, rfl⟩ := List.mem_map.mp h
  obtain ⟨sp4, h4, rfl⟩ := List.mem_map.mp h5
  obtain ⟨sp3, h3, rfl⟩ := List.mem_map.mp h4
  have hcore : sp3.policy ∈ pool ∧ sp3.authority_score = calcAuthority sp3.policy := by
    have hbase : ∀ sp2, sp2 ∈ (pool.map fun p => ({ policy := p } : ScoredPolicy)).map
        setAuthority → sp2.policy ∈ pool ∧ sp2.authority_score = calcAuthority sp2.policy := by
      intro sp2 h2
      obtain ⟨sp1, h1, rfl⟩ := List.mem_map.mp h2
      obtain ⟨p, hp, rfl⟩ := List.mem_map.mp h1
      exact ⟨hp, rfl⟩
    cases hb : env.bm25 with
    | none =>
      rw [hb] at h3
      exact hbase sp3 h3
    | some raw =>
      rw [hb] at h3
      obtain ⟨sp2, h2, hpol, hauth⟩ := mem_calcBm25Scores h3
      obtain ⟨hmem, hcalc⟩ := hbase sp2 h2
      rw [hpol, hauth]
      exact ⟨hmem, hcalc⟩
  exact ⟨hcore.1, hcore.2, rfl⟩

/-! ### Sorting facts -/

theorem sortByFinalDesc_perm (l : List ScoredPolicy) : (sortByFinalDesc l).Perm l :=
  List.perm_insertionSort finalGE l

theorem mem_sortByFinalDesc {l : List ScoredPolicy} {sp : ScoredPolicy} :
    sp ∈ sortByFinalDesc l ↔ sp ∈ l :=
  (sortByFinalDesc_perm l).mem_iff

theorem sortByFinalDesc_length (l : List ScoredPolicy) :
    (sortByFinalDesc l).length = l.length :=
  (sortByFinalDesc_perm l).length_eq

theorem sortByFinalDesc_sorted (l : List ScoredPolicy) :
    List.Sorted finalGE (sortByFinalDesc l) :=
  List.sorted_insertionSort finalGE l

/-! ### The candidate pool -/

theorem mem_filterOfficial {policies : List Candidate} {p : Candidate}
    (h : p ∈ filterOfficial policies) : p ∈ policies := by
  simp only [filterOfficial] at h
  split at h
  · exact h
  · exact List.mem_of_mem_filter h

theorem filterOfficial_links_subperm (policies : List Candidate) :
    List.Subperm ((filterOfficial policies).map (·.link)) (policies.map (·.link)) := by
  simp only [filterOfficial]
  split
  · exact (List.Perm.refl _).subperm
  · exact ((List.filter_sublist _).map _).subperm

theorem filterOfficial_ne_nil {policies : List Candidate} (h : policies ≠ []) :
    filterOfficial policies ≠ [] := by
  simp only [filterOfficial]
  split
  · exact h
  · next hne => exact fun hnil => hne (by rw [hnil]; rfl)

theorem funnelPool_length (env : RankEnv) (query : String) (pool : List Candidate) :
    (funnelPool env query pool).length = min 15 pool.length := by
  unfold funnelPool
  rw [List.length_take, sortByFinalDesc_length, scoreStage_length]

theorem mem_funnelPool {env : RankEnv} {query : String} {pool : List Candidate}
    {sp : ScoredPolicy} (h : sp ∈ funnelPool env query pool) :
    sp.policy ∈ pool ∧ sp.authority_score = calcAuthority sp.policy ∧
      sp.final_score = qAdd (qMul (mkRat 7 10) (qDiv (qAdd sp.bm25_score sp.semantic_score) 2))
        (qMul (mkRat 3 10) sp.recency_score) := by
  unfold funnelPool at h
  exact mem_scoreStage (mem_sortByFinalDesc.mp (List.mem_of_mem_take h))

theorem llmVerifyPolicy_policies (labels : Option (List String)) (sps : List ScoredPolicy) :
    (llmVerifyPolicy labels sps).map (·.policy) = sps.map (·.policy) := by
  cases labels with
  | none => rfl
  | some ls => exact applyLabels_policies ls sps

theorem mem_llmVerifyPolicy {labels : Option (List String)} {sps : List ScoredPolicy}
    {sp : ScoredPolicy} (h : sp ∈ llmVerifyPolicy labels sps) :
    ∃ sp' ∈ sps, sp.policy = sp'.policy ∧
      (sp.authority_score = sp'.authority_score ∨ sp.authority_score = 0) := by
  cases labels with
  | none => exact ⟨sp, h, rfl, Or.inl rfl⟩
  | some ls => exact mem_applyLabels h

theorem mem_rankCandidates {env : RankEnv} {policies : List Candidate} {query : String}
    {fo : Bool} {sp : ScoredPolicy} (h : sp ∈ rankCandidates env policies query fo) :
    sp.policy ∈ policies ∧
      (sp.authority_score = calcAuthority sp.policy ∨ sp.authority_score = 0) := by
  simp only [rankCandidates] at h
  rw [mem_sortByFinalDesc] at h
  have hmem : ∃ sp' ∈ funnelPool env query
      (if fo then filterOfficial policies else policies), sp.policy = sp'.policy ∧
      (sp.authority_score = (stage2Rescore query sp').authority_score ∨
        sp.authority_score = 0) := by
    rcases List.mem_append.mp h with h' | h'
    · obtain ⟨sp1, h1, hpol, hauth⟩ := mem_llmVerifyPolicy h'
      have h2 := mem_sortByFinalDesc.mp (List.mem_of_mem_take h1)
      obtain ⟨sp', hsp', rfl⟩ := List.mem_map.mp h2
      exact ⟨sp', hsp', by rw [hpol, stage2Rescore_policy], by
        rcases hauth with h | h
        · exact Or.inl (by rw [h])
        · exact Or.inr h⟩
    · have h2 := mem_sortByFinalDesc.mp (List.mem_of_mem_drop h')
      obtain ⟨sp', hsp', rfl⟩ := List.mem_map.mp h2
      exact ⟨sp', hsp', by rw [stage2Rescore_policy], Or.inl rfl⟩
  obtain ⟨sp', hsp', hpol, hauth⟩ := hmem
  obtain ⟨hpool, hcalc, _⟩ := mem_funnelPool hsp'
  have hpol2 : sp.policy ∈ policies := by
    rw [hpol]
    split at hpool
    · exact mem_filterOfficial hpool
    · exact hpool
  refine ⟨hpol2, ?_⟩
  rcases hauth with h | h
  · left
    rw [h, hpol]
    exact hcalc
  · exact Or.inr h

theorem rankCandidates_length (env : RankEnv) (policies : List Candidate) (query : String)
    (fo : Bool) : (rankCandidates env policies query fo).length =
      min 15 (if fo then filterOfficial policies else policies).length := by
  simp only [rankCandidates]
  rw [sortByFinalDesc_length]
  have hlabels : ∀ (labels : Option (List String)) (sps : List ScoredPolicy),
      (llmVerifyPolicy labels sps).length = sps.length := by
    intro labels sps
    have := congrArg List.length (llmVerifyPolicy_policies labels sps)
    simpa using this
  rw [List.length_append, hlabels, List.length_take, List.length_drop,
    sortByFinalDesc_length, List.length_map, funnelPool_length]
  omega

theorem spLinks_eq_map_policy (l : List ScoredPolicy) :
    spLinks l = (l.map (·.policy)).map (·.link) := by
  rw [spLinks, List.map_map]
  rfl

theorem spLinks_of_policies_eq {l₁ l₂ : List ScoredPolicy}
    (h : l₁.map (·.policy) = l₂.map (·.policy)) : spLinks l₁ = spLinks l₂ := by
  rw [spLinks_eq_map_policy, spLinks_eq_map_policy, h]

theorem spLinks_map_stage2 (query : String) (l : List ScoredPolicy) :
    spLinks (l.map (stage2Rescore query)) = spLinks l :=
  spLinks_of_policies_eq (map_policy_comp (stage2Rescore_policy query) l)

theorem spLinks_perm {l₁ l₂ : List ScoredPolicy} (h : l₁.Perm l₂) :
    (spLinks l₁).Perm (spLinks l₂) := h.map _

theorem rankCandidates_links_subperm (env : RankEnv) (policies : List Candidate)
    (query : String) (fo : Bool) :
    List.Subperm (spLinks (rankCandidates env policies query fo)) (policies.map (·.link)) := by
  set pool := if fo then filterOfficial policies else policies with hpool
  have hA : List.Subperm (spLinks (funnelPool env query pool)) (pool.map (·.link)) := by
    have h1 : List.Sublist (spLinks (funnelPool env query pool))
        (spLinks (sortByFinalDesc (scoreStage env query pool))) :=
      (List.take_sublist _ _).map _
    have h2 : (spLinks (sortByFinalDesc (scoreStage env query pool))).Perm
        (spLinks (scoreStage env query pool)) :=
      spLinks_perm (sortByFinalDesc_perm _)
    have h3 : spLinks (scoreStage env query pool) = pool.map (·.link) := by
      rw [spLinks_eq_map_policy, scoreStage_policies]
    exact (h1.subperm.trans h2.subperm).trans (h3 ▸ List.Subperm.refl _)
  have hBC : List.Subperm (spLinks (sortByFinalDesc ((funnelPool env query pool).map
      (stage2Rescore query)))) (pool.map (·.link)) := by
    have h1 := spLinks_perm (sortByFinalDesc_perm ((funnelPool env query pool).map
      (stage2Rescore query)))
    rw [spLinks_map_stage2] at h1
    exact h1.subperm.trans hA
  set C := sortByFinalDesc ((funnelPool env query pool).map (stage2Rescore query)) with hC
  have hD : spLinks (llmVerifyPolicy env.labels (C.take 8) ++ C.drop 8) = spLinks C := by
    have h1 : spLinks (llmVerifyPolicy env.labels (C.take 8)) = spLinks (C.take 8) :=
      spLinks_of_policies_eq (llmVerifyPolicy_policies _ _)
    calc spLinks (llmVerifyPolicy env.labels (C.take 8) ++ C.drop 8)
        = spLinks (llmVerifyPolicy env.labels (C.take 8)) ++ spLinks (C.drop 8) := by
          simp [spLinks]
      _ = spLinks (C.take 8) ++ spLinks (C.drop 8) := by rw [h1]
      _ = spLinks (C.take 8 ++ C.drop 8) := by simp [spLinks]
      _ = spLinks C := by rw [List.take_append_drop]
  have hout : (spLinks (rankCandidates env policies query fo)).Perm
      (spLinks (llmVerifyPolicy env.labels (C.take 8) ++ C.drop 8)) := by
    simp only [rankCandidates]
    exact spLinks_perm (sortByFinalDesc_perm _)
  have hfin : List.Subperm (spLinks (rankCandidates env policies query fo))
      (pool.map (·.link)) :=
    hout.subperm.trans (hD ▸ hBC)
  have hpol : List.Subperm (pool.map (·.link)) (policies.map (·.link)) := by
    rw [hpool]
    split
    · exact filterOfficial_links_subperm policies
    · exact List.Subperm.refl _
  exact hfin.trans hpol

/-! ### Result assembly facts -/

theorem foldl_assembleStep_eq (cands : List ScoredPolicy) :
    ∀ acc : List RankedEntry, ∃ sub : List ScoredPolicy,
      List.Sublist sub cands ∧ cands.foldl assembleStep acc = acc ++ sub.map mkMainEntry ∧
      ∀ sp ∈ sub, 0 < sp.authority_score ∧ mkRat 1 20 < sp.final_score := by
  induction cands with
  | nil =>
    intro acc
    exact ⟨[], List.Sublist.refl _, by simp, by simp⟩
  | cons sp rest ih =>
    intro acc
    simp only [List.foldl_cons]
    by_cases h1 : sp.authority_score ≤ 0 ∨ sp.final_score ≤ mkRat 1 20
    · obtain ⟨sub, hsub, heq, hprop⟩ := ih acc
      refine ⟨sub, hsub.cons _, ?_, hprop⟩
      rw [assembleStep, if_pos h1]
      exact heq
    · by_cases h2 : 5 ≤ acc.length ∧ sp.authority_score < mkRat 1 4
      · obtain ⟨sub, hsub, heq, hprop⟩ := ih acc
        refine ⟨sub, hsub.cons _, ?_, hprop⟩
        rw [assembleStep, if_neg h1, if_pos h2]
        exact heq
      · obtain ⟨sub, hsub, heq, hprop⟩ := ih (acc ++ [mkMainEntry sp])
        refine ⟨sp :: sub, hsub.cons₂ _, ?_, ?_⟩
        · rw [assembleStep, if_neg h1, if_neg h2, heq, List.append_assoc]
          rfl
        · intro x hx
          rcases List.mem_cons.mp hx with rfl | hx
          · push_neg at h1
            exact ⟨lt_of_not_le (by simpa using h1.1), h1.2⟩
          · exact hprop x hx

theorem assembleMain_eq (cands : List ScoredPolicy) :
    ∃ sub : List ScoredPolicy,
      List.Sublist sub cands ∧ assembleMain cands = sub.map mkMainEntry ∧
      ∀ sp ∈ sub, 0 < sp.authority_score ∧ mkRat 1 20 < sp.final_score := by
  obtain ⟨sub, hsub, heq, hprop⟩ := foldl_assembleStep_eq cands []
  exact ⟨sub, hsub, by simpa [assembleMain] using heq, hprop⟩

theorem backfillLoop_eq (seen : List String) (cands : List ScoredPolicy) :
    ∀ res : List RankedEntry, ∃ sub : List ScoredPolicy,
      List.Sublist sub cands ∧
      backfillLoop seen cands res = res ++ sub.map mkBackfillEntry ∧
      ∀ sp ∈ sub, seen.contains sp.policy.link = false := by
  induction cands with
  | nil =>
    intro res
    exact ⟨[], List.Sublist.refl _, by simp [backfillLoop], by simp⟩
  | cons sp rest ih =>
    intro res
    simp only [backfillLoop]
    by_cases h5 : 5 ≤ res.length
    · rw [if_pos h5]
      exact ⟨[], List.nil_sublist _, by simp, by simp⟩
    · rw [if_neg h5]
      by_cases hc : seen.contains sp.policy.link
      · rw [if_pos hc]
        obtain ⟨sub, hsub, heq, hprop⟩ := ih res
        exact ⟨sub, hsub.cons _, heq, hprop⟩
      · rw [if_neg hc]
        obtain ⟨sub, hsub, heq, hprop⟩ := ih (res ++ [mkBackfillEntry sp])
        refine ⟨sp :: sub, hsub.cons₂ _, ?_, ?_⟩
        · rw [heq, List.append_assoc]
          rfl
        · intro x hx
          rcases List.mem_cons.mp hx with rfl | hx
          · exact Bool.eq_false_iff.mpr hc
          · exact hprop x hx

theorem backfillLoop_length (seen : List String) (cands : List ScoredPolicy) :
    ∀ res : List RankedEntry, res.length ≤ 5 →
      (backfillLoop seen cands res).length =
        min 5 (res.length +
          (cands.filter fun sp => !(seen.contains sp.policy.link)).length) := by
  induction cands with
  | nil =>
    intro res h
    simp only [backfillLoop, List.filter_nil, List.length_nil]
    omega
  | cons sp rest ih =>
    intro res h
    simp only [backfillLoop]
    by_cases h5 : 5 ≤ res.length
    · rw [if_pos h5]
      omega
    · rw [if_neg h5]
      by_cases hc : seen.contains sp.policy.link
      · rw [if_pos hc, List.filter_cons]
        simp only [hc, Bool.not_true, Bool.false_eq_true, if_false]
        exact ih res h
      · rw [if_neg hc, List.filter_cons]
        have hc' : (!(seen.contains sp.policy.link)) = true := by
          rw [Bool.eq_false_iff.mpr hc]
          rfl
        simp only [hc', if_true]
        have hlen : (res ++ [mkBackfillEntry sp]).length ≤ 5 := by
          simp only [List.length_append, List.length_cons, List.length_nil]
          omega
        rw [ih (res ++ [mkBackfillEntry sp]) hlen]
        simp only [List.length_append, List.length_cons, List.length_nil]
        omega

theorem backfill_eq (cands : List ScoredPolicy) (res : List RankedEntry) :
    ∃ sub : List ScoredPolicy,
      List.Sublist sub cands ∧ backfill cands res = res ++ sub.map mkBackfillEntry ∧
      ∀ sp ∈ sub, (res.map fun e => e.policy.link).contains sp.policy.link = false := by
  rw [backfill]
  split
  · exact backfillLoop_eq _ cands res
  · exact ⟨[], List.nil_sublist _, by simp, by simp⟩

/-- Decomposition of a `rank` result entry: it is either a filtered-in
entry built from a pool candidate with positive authority and
above-floor final score, or a backfilled entry built from a pool
candidate. -/
theorem mem_rank {r : HybridRanker} {env : RankEnv} {policies : List Candidate}
    {query : String} {fo : Bool} {e : RankedEntry}
    (h : e ∈ HybridRanker.rank r env policies query fo) :
    (∃ sp ∈ rankCandidates env policies query fo,
        e = mkMainEntry sp ∧ 0 < sp.authority_score ∧ mkRat 1 20 < sp.final_score) ∨
      ∃ sp ∈ rankCandidates env policies query fo, e = mkBackfillEntry sp := by
  rw [HybridRanker.rank] at h
  split at h
  · simp at h
  · obtain ⟨sub1, hsub1, heq1, hprop1⟩ := assembleMain_eq (rankCandidates env policies query fo)
    obtain ⟨sub2, hsub2, heq2, _⟩ :=
      backfill_eq (rankCandidates env policies query fo)
        (assembleMain (rankCandidates env policies query fo))
    rw [heq2, heq1, List.mem_append] at h
    rcases h with h | h
    · obtain ⟨sp, hsp, rfl⟩ := List.mem_map.mp h
      exact Or.inl ⟨sp, hsub1.subset hsp, rfl, hprop1 sp hsp⟩
    · obtain ⟨sp, hsp, rfl⟩ := List.mem_map.mp h
      exact Or.inr ⟨sp, hsub2.subset hsp, rfl⟩

theorem rank_ne_nil {r : HybridRanker} {env : RankEnv} {policies : List Candidate}
    {query : String} {fo : Bool} (h : policies ≠ []) :
    HybridRanker.rank r env policies query fo ≠ [] := by
  rw [HybridRanker.rank]
  rw [if_neg (by simpa using h)]
  have hpool : (if fo then filterOfficial policies else policies) ≠ [] := by
    split
    · exact filterOfficial_ne_nil h
    · exact h
  have hlen : 0 < (rankCandidates env policies query fo).length := by
    rw [rankCandidates_length]
    have : 0 < (if fo then filterOfficial policies else policies).length :=
      List.length_pos.mpr hpool
    omega
  set cands := rankCandidates env policies query fo with hcands
  cases hres : assembleMain cands with
  | cons e rest =>
    obtain ⟨sub, _, heq, _⟩ := backfill_eq cands (assembleMain cands)
    rw [heq, hres]
    simp
  | nil =>
    rw [backfill, hres]
    rw [if_pos (by simpa using hlen)]
    cases hc : cands with
    | nil => rw [hc] at hlen; simp at hlen
    | cons sp rest =>
      simp only [backfillLoop, List.length_nil, List.map_nil]
      rw [if_neg (by omega)]
      rw [if_neg (by simp)]
      simp only [List.nil_append]
      obtain ⟨sub, _, heq, _⟩ := backfillLoop_eq ([] : List String) rest [mkBackfillEntry sp]
      rw [heq]
      simp

/-! ### The values of the authority scorer -/

theorem domainBase_cases (link : String) :
    domainBase link = mkRat 9 10 ∨ domainBase link = mkRat 17 20 ∨
      domainBase link = mkRat 7 10 ∨ domainBase link = 0 := by
  rw [domainBase]
  split
  · exact Or.inl rfl
  · split
    · exact Or.inr (Or.inl rfl)
    · split
      · exact Or.inr (Or.inr (Or.inl rfl))
      · exact Or.inr (Or.inr (Or.inr rfl))

theorem calcAuthority_mem (p : Candidate) : calcAuthority p ∈ AUTH_VALUES := by
  simp only [calcAuthority]
  split
  · decide
  · split
    · next hbase =>
      rcases domainBase_cases p.link with hb | hb | hb | hb <;> rw [hb] <;>
        simp only [pathAdjusted] <;> split
      · decide
      · split <;> decide
      · decide
      · split <;> decide
      · decide
      · split <;> decide
      · rw [hb] at hbase
        exact absurd hbase (by decide)
      · rw [hb] at hbase
        exact absurd hbase (by decide)
    · cases hft : findTier (toLowerStr (p.source ++ " " ++ p.link)) with
      | some lv =>
        have hmem : lv ∈ AUTHORITY_LEVELS := List.mem_of_find?_eq_some hft
        simp only [AUTHORITY_LEVELS, List.mem_cons, List.not_mem_nil, or_false] at hmem
        rcases hmem with rfl | rfl | rfl | rfl | rfl | rfl | rfl | rfl <;>
          · change tierScore _ ∈ AUTH_VALUES
            decide
      | none =>
        change (if (NEWS_DOMAINS.any fun d => strContains (toLowerStr p.link) d) = true
          then mkRat 1 10 else mkRat 3 10) ∈ AUTH_VALUES
        split <;> decide

theorem calcAuthority_nonneg (p : Candidate) : 0 ≤ calcAuthority p := by
  have h := calcAuthority_mem p
  simp only [AUTH_VALUES, List.mem_cons, List.not_mem_nil, or_false] at h
  rcases h with h | h | h | h | h | h | h | h | h | h | h | h | h | h | h | h | h <;>
    rw [h] <;> decide

theorem noiseVetoed_false_of_waiver {p : Candidate}
    (hhigh : isHighAuthDomain p.link = true)
    (hcrit : ∀ kw ∈ CRITICAL_NOISE,
      strContains (toLowerStr (p.title ++ " " ++ p.snippet)) (toLowerStr kw) = false) :
    noiseVetoed p = false := by
  simp only [noiseVetoed]
  rw [List.any_eq_false]
  intro kw hkw
  intro hcond
  rw [Bool.and_eq_true] at hcond
  obtain ⟨hmatch, hwaive⟩ := hcond
  by_cases hc : kw ∈ CRITICAL_NOISE
  · rw [hcrit kw hc] at hmatch
    exact absurd hmatch (by simp)
  · have hcont : CRITICAL_NOISE.contains kw = false := by simpa using hc
    rw [hhigh, hcont] at hwaive
    simp at hwaive

theorem calcAuthority_pos_of_not_vetoed {p : Candidate} (h : noiseVetoed p = false) :
    0 < calcAuthority p := by
  simp only [calcAuthority]
  rw [if_neg (by rw [h]; simp)]
  split
  · next hbase =>
    rcases domainBase_cases p.link with hb | hb | hb | hb <;> rw [hb] <;>
      simp only [pathAdjusted] <;> split
    · decide
    · split <;> decide
    · decide
    · split <;> decide
    · decide
    · split <;> decide
    · rw [hb] at hbase
      exact absurd hbase (by decide)
    · rw [hb] at hbase
      exact absurd hbase (by decide)
  · cases hft : findTier (toLowerStr (p.source ++ " " ++ p.link)) with
    | some lv =>
      have hmem : lv ∈ AUTHORITY_LEVELS := List.mem_of_find?_eq_some hft
      simp only [AUTHORITY_LEVELS, List.mem_cons, List.not_mem_nil, or_false] at hmem
      rcases hmem with rfl | rfl | rfl | rfl | rfl | rfl | rfl | rfl <;>
        · change 0 < tierScore _
          decide
    | none =>
      change 0 < (if (NEWS_DOMAINS.any fun d => strContains (toLowerStr p.link) d) = true
        then mkRat 1 10 else mkRat 3 10)
      split
      · decide
      · decide

theorem round3_pos_of_mem {x : ℚ} (hx : x ∈ AUTH_VALUES) (hne : x ≠ 0) : 0 < round3 x := by
  simp only [AUTH_VALUES, List.mem_cons, List.not_mem_nil, or_false] at hx
  rcases hx with rfl | rfl | rfl | rfl | rfl | rfl | rfl | rfl | rfl | rfl | rfl | rfl | rfl |
    rfl | rfl | rfl | rfl
  · exact absurd rfl hne
  all_goals decide

/-- The authority score of every pool candidate is either its
`_calc_authority` value or the zero written by a `B` verdict, hence one of
the finitely many authority values. -/
theorem rankCandidates_authority_mem {env : RankEnv} {policies : List Candidate}
    {query : String} {fo : Bool} {sp : ScoredPolicy}
    (h : sp ∈ rankCandidates env policies query fo) :
    sp.authority_score ∈ AUTH_VALUES := by
  rcases (mem_rankCandidates h).2 with h' | h'
  · rw [h']
    exact calcAuthority_mem sp.policy
  · rw [h']
    decide

/-! ### Entry breakdowns -/

theorem mkMainEntry_policy (sp : ScoredPolicy) : (mkMainEntry sp).policy = sp.policy := rfl

theorem mkBackfillEntry_policy (sp : ScoredPolicy) :
    (mkBackfillEntry sp).policy = sp.policy := rfl

theorem mkMainEntry_lookup_authority (sp : ScoredPolicy) :
    (mkMainEntry sp).scores.lookup "authority" =
      some (ScoreVal.num (round3 sp.authority_score)) := rfl

theorem mkBackfillEntry_lookup_note (sp : ScoredPolicy) :
    (mkBackfillEntry sp).scores.lookup "note" = some (ScoreVal.str "backfill") := rfl

theorem mkMainEntry_lookup_verifier (sp : ScoredPolicy) :
    (mkMainEntry sp).scores.lookup "verifier" = none := rfl

theorem mkBackfillEntry_lookup_verifier (sp : ScoredPolicy) :
    (mkBackfillEntry sp).scores.lookup "verifier" = none := rfl

/-! ### Dedup facts -/

theorem rank_links_nodup {r : HybridRanker} {env : RankEnv} {policies : List Candidate}
    {query : String} {fo : Bool} (h : (policies.map (·.link)).Nodup) :
    ((HybridRanker.rank r env policies query fo).map fun e => e.policy.link).Nodup := by
  rw [HybridRanker.rank]
  split
  · simp
  · set cands := rankCandidates env policies query fo with hcands
    have hcl : (spLinks cands).Nodup :=
      subperm_nodup (rankCandidates_links_subperm env policies query fo) h
    obtain ⟨sub1, hsub1, heq1, _⟩ := assembleMain_eq cands
    obtain ⟨sub2, hsub2, heq2, hseen⟩ := backfill_eq cands (assembleMain cands)
    rw [heq2, heq1, List.map_append]
    have hm1 : (sub1.map mkMainEntry).map (fun e => e.policy.link) = spLinks sub1 := by
      rw [List.map_map]
      rfl
    have hm2 : (sub2.map mkBackfillEntry).map (fun e => e.policy.link) = spLinks sub2 := by
      rw [List.map_map]
      rfl
    rw [hm1, hm2, List.nodup_append]
    refine ⟨(hsub1.map _).nodup hcl, (hsub2.map _).nodup hcl, ?_⟩
    intro a ha1 ha2
    obtain ⟨sp, hsp, rfl⟩ := List.mem_map.mp ha2
    have hcontains := hseen sp hsp
    rw [heq1, hm1] at hcontains
    have : sp.policy.link ∉ spLinks sub1 := by simpa using hcontains
    exact this ha1

/-! ### Claim C1 -/

/-- Claim C1, as stated, is false: on an input containing two candidates
with the same link, `rank` returns both (the assembly loop performs no
dedup), so the output carries the link twice. -/
theorem C1_counterexample :
    (HybridRanker.rank defaultRanker testEnv [govCandidate, govCandidate] "t" false).length
        = 2 ∧
    ¬ ((HybridRanker.rank defaultRanker testEnv [govCandidate, govCandidate] "t"
        false).map fun e => e.policy.link).Nodup := by
  constructor
  · decide
  · decide

/-- Claim C1 (amended): for every input list of candidates whose links are
pairwise distinct, the list returned by `HybridRanker.rank` contains each
link value at most once. -/
theorem C1_dedup_unique_links (r : HybridRanker) (env : RankEnv)
    (policies : List Candidate) (query : String) (fo : Bool)
    (h : (policies.map (·.link)).Nodup) :
    ((HybridRanker.rank r env policies query fo).map fun e => e.policy.link).Nodup :=
  rank_links_nodup h

/-- Witness for C1: the amended dedup theorem applied to a concrete
distinct-link input. -/
theorem C1_witness :
    (([govCandidate].map (·.link)).Nodup) ∧
    ((HybridRanker.rank defaultRanker testEnv [govCandidate] "t" false).map
      fun e => e.policy.link).Nodup :=
  ⟨by decide, C1_dedup_unique_links defaultRanker testEnv [govCandidate] "t" false (by decide)⟩

/-! ### Claim C2 -/

/-- Claim C2, as stated, is false: on a six-candidate pool with five unique
links in which every candidate is vetoed, backfill reaches five entries but
appends the same link twice (the `seen_links` set is never extended inside
the loop), so the backfilled entries are not unique by link. -/
theorem C2_counterexample :
    5 ≤ ((dupPolicies.map (·.link)).dedup).length ∧
    (assembleMain (rankCandidates testEnv dupPolicies "t" false)).length < 5 ∧
    (HybridRanker.rank defaultRanker testEnv dupPolicies "t" false).length = 5 ∧
    ¬ ((HybridRanker.rank defaultRanker testEnv dupPolicies "t" false).map
        fun e => e.policy.link).Nodup := by
  refine ⟨by decide, by decide, by decide, by decide⟩

/-- Claim C2 (amended): for every input pool of at least 5 candidates with
pairwise-distinct links, if fewer than 5 candidates survive the veto/floor
filtering, `rank` backfills from the pre-veto candidate pool so that the
output has exactly 5 entries, the output stays unique by link, and every
entry beyond the surviving ones carries the `"note": "backfill"` marker. -/
theorem C2_backfill_guarantee (r : HybridRanker) (env : RankEnv)
    (policies : List Candidate) (query : String)
    (hnodup : (policies.map (·.link)).Nodup)
    (hlen : 5 ≤ policies.length)
    (hfew : (assembleMain (rankCandidates env policies query false)).length < 5) :
    (HybridRanker.rank r env policies query false).length = 5 ∧
    ((HybridRanker.rank r env policies query false).map fun e => e.policy.link).Nodup ∧
    ∀ e ∈ (HybridRanker.rank r env policies query false).drop
        (assembleMain (rankCandidates env policies query false)).length,
      e.scores.lookup "note" = some (ScoreVal.str "backfill") := by
  set cands := rankCandidates env policies query false with hcands
  have hclen : cands.length = min 15 policies.length := by
    rw [hcands, rankCandidates_length]
    simp
  have hclen5 : 5 ≤ cands.length := by omega
  have hne : ¬ (policies.isEmpty = true) := by
    cases policies with
    | nil => simp at hlen
    | cons a l => simp
  have hrank : HybridRanker.rank r env policies query false =
      backfill cands (assembleMain cands) := by
    rw [HybridRanker.rank, if_neg hne]
  set res := assembleMain cands with hres
  have hreslen : res.length < 5 := hfew
  set seen := res.map (fun e => e.policy.link) with hseen
  have hcond : res.length < 5 ∧ res.length < cands.length := ⟨hreslen, by omega⟩
  have hbackfill : backfill cands res = backfillLoop seen cands res := by
    rw [backfill, if_pos hcond]
  -- counting: enough un-seen candidates exist
  have hlinks : (spLinks cands).Nodup :=
    subperm_nodup (rankCandidates_links_subperm env policies query false) hnodup
  obtain ⟨sub1, hsub1, heq1, _⟩ := assembleMain_eq cands
  have hseenlen : seen.length = res.length := by rw [hseen, List.length_map]
  have hfiltin : (cands.filter fun sp => seen.contains sp.policy.link).length ≤
      res.length := by
    set d := cands.filter fun sp => seen.contains sp.policy.link with hd
    have hdsub : List.Sublist d cands := List.filter_sublist cands
    have hdnodup : (spLinks d).Nodup := (hdsub.map _).nodup hlinks
    have hdsubset : spLinks d ⊆ seen := by
      intro a ha
      obtain ⟨sp, hsp, rfl⟩ := List.mem_map.mp ha
      have := List.of_mem_filter hsp
      simpa using this
    have := nodup_length_le_of_subset hdnodup hdsubset
    rw [spLinks, List.length_map] at this
    omega
  have hpartition :=
    @List.length_eq_length_filter_add _ cands fun sp => seen.contains sp.policy.link
  have hk : 5 ≤ res.length +
      (cands.filter fun sp => !(seen.contains sp.policy.link)).length := by omega
  have hlooplen : (backfillLoop seen cands res).length = 5 := by
    rw [backfillLoop_length seen cands res (by omega)]
    omega
  refine ⟨?_, ?_, ?_⟩
  · rw [hrank, hbackfill]
    exact hlooplen
  · rw [hrank]
    have := @rank_links_nodup r env policies query false hnodup
    rw [hrank] at this
    exact this
  · obtain ⟨sub2, _, heq2, _⟩ := backfill_eq cands res
    rw [hrank, heq2, List.drop_left]
    intro e he
    obtain ⟨sp, _, rfl⟩ := List.mem_map.mp he
    exact mkBackfillEntry_lookup_note sp

/-- Witness for C2: five distinct-link vetoed candidates; zero survive
filtering and the output is exactly the five backfilled entries. -/
theorem C2_witness :
    ((noisyPolicies.map (·.link)).Nodup ∧ 5 ≤ noisyPolicies.length ∧
      (assembleMain (rankCandidates testEnv noisyPolicies "t" false)).length < 5) ∧
    (HybridRanker.rank defaultRanker testEnv noisyPolicies "t" false).length = 5 :=
  ⟨⟨by decide, by decide, by decide⟩,
    (C2_backfill_guarantee defaultRanker testEnv noisyPolicies "t" (by decide) (by decide)
      (by decide)).1⟩

/-! ### Claim C3 -/

/-- Claim C3, as stated, is false: the pipeline keeps no per-candidate
verifier score or label at all.  On a concrete verifier-failure run the
result is non-empty and its score breakdown contains no `"verifier"` key
whatsoever, so no candidate "retains a neutral verifier score of 0.5". -/
theorem C3_counterexample :
    (HybridRanker.rank defaultRanker testEnv [govCandidate] "t" false).length = 1 ∧
    ((HybridRanker.rank defaultRanker testEnv [govCandidate] "t" false).map
      fun e => e.scores.lookup "verifier") = [none] := by
  constructor
  · decide
  · decide

/-- Claim C3 (amended): if the external verifier call fails in any way
(`labels = none` covers network errors, timeouts, exceptions and responses
with no extractable JSON array), the ranking still completes and returns
exactly the result of the pipeline with the verification stage removed —
every candidate keeps its pre-verification scores — and no entry of the
output carries any verifier score or label (there is no `"verifier"` key
in any breakdown). -/
theorem C3_verifier_fault_tolerance (r : HybridRanker) (bm25 : Option (List ℚ))
    (nowDay : ℤ) (policies : List Candidate) (query : String) (fo : Bool) :
    HybridRanker.rank r { bm25 := bm25, labels := none, nowDay := nowDay }
        policies query fo =
      HybridRanker.rankUnverified r { bm25 := bm25, labels := none, nowDay := nowDay }
        policies query fo ∧
    (HybridRanker.rank r { bm25 := bm25, labels := none, nowDay := nowDay }
      policies query fo).Forall fun e => e.scores.lookup "verifier" = none := by
  have hcand : rankCandidates { bm25 := bm25, labels := none, nowDay := nowDay }
      policies query fo =
      rankCandidatesUnverified { bm25 := bm25, labels := none, nowDay := nowDay }
        policies query fo := by
    simp only [rankCandidates, rankCandidatesUnverified, llmVerifyPolicy,
      List.take_append_drop]
  constructor
  · rw [HybridRanker.rank, HybridRanker.rankUnverified, hcand]
  · rw [List.forall_iff_forall_mem]
    intro e he
    rcases mem_rank he with ⟨sp, _, rfl, _, _⟩ | ⟨sp, _, rfl⟩
    · exact mkMainEntry_lookup_verifier sp
    · exact mkBackfillEntry_lookup_verifier sp

/-! ### Claim C4 -/

/-- Claim C4, as stated, is false: the verifier's `B` (company disclosure)
verdict zeroes the candidate's final score (and authority), an effect that
is none of the three effects the claim allows (boost ×1.2 capped, discount
×0.1 or ×0.3, or unchanged) on a final score of 0.8. -/
theorem C4_counterexample :
    (applyLabel "B" spB).final_score = 0 ∧ (applyLabel "B" spB).authority_score = 0 ∧
    ¬ ((0 : ℚ) = min 1 (spB.final_score * (12/10)) ∨ (0 : ℚ) = spB.final_score * (1/10) ∨
      (0 : ℚ) = spB.final_score * (3/10) ∨ (0 : ℚ) = spB.final_score) := by
  refine ⟨by decide, by decide, ?_⟩
  have hfs : spB.final_score = 4/5 := by
    show mkRat 4 5 = 4/5
    rw [Rat.mkRat_eq_div]
    norm_num
  rw [hfs]
  rw [show min 1 ((4:ℚ)/5 * (12/10)) = 24/25 by rw [min_def]; norm_num]
  norm_num

/-- Claim C4 (amended): the verifier labels are `"A"`/`"B"`/`"C"`, applied
to the candidate's final score (no separate verifier score exists): `A`
(policy original) multiplies the final score by 1.2 capped at 1.0; `C`
(news/noise) multiplies it by 0.3; `B` (company disclosure) sets both the
final score and the authority score to 0; any other label leaves the
candidate unchanged. -/
theorem C4_label_effects (l : String) (sp : ScoredPolicy) :
    (l = "A" → (applyLabel l sp).final_score = min 1 (sp.final_score * (12/10)) ∧
      (applyLabel l sp).authority_score = sp.authority_score) ∧
    (l = "B" → (applyLabel l sp).final_score = 0 ∧
      (applyLabel l sp).authority_score = 0) ∧
    (l = "C" → (applyLabel l sp).final_score = sp.final_score * (3/10) ∧
      (applyLabel l sp).authority_score = sp.authority_score) ∧
    (l ≠ "A" → l ≠ "B" → l ≠ "C" → applyLabel l sp = sp) := by
  have hA : qMul sp.final_score (mkRat 12 10) = sp.final_score * (12/10) := by
    rw [qMul_eq, Rat.mkRat_eq_div]
    norm_num
  have hC : qMul sp.final_score (mkRat 3 10) = sp.final_score * (3/10) := by
    rw [qMul_eq, Rat.mkRat_eq_div]
    norm_num
  refine ⟨?_, ?_, ?_, ?_⟩
  · rintro rfl
    constructor
    · show (applyLabel "A" sp).final_score = _
      rw [applyLabel, if_neg (by decide), if_neg (by decide), if_pos rfl, hA]
    · rw [applyLabel, if_neg (by decide), if_neg (by decide), if_pos rfl]
  · rintro rfl
    constructor
    · rw [applyLabel, if_pos rfl]
    · rw [applyLabel, if_pos rfl]
  · rintro rfl
    constructor
    · rw [applyLabel, if_neg (by decide), if_pos rfl, hC]
    · rw [applyLabel, if_neg (by decide), if_pos rfl]
  · intro hA' hB' hC'
    rw [applyLabel, if_neg (by simpa using hB'), if_neg (by simpa using hC'),
      if_neg (by simpa using hA')]

/-- Witness for C4: the four label effects at a concrete scored candidate. -/
theorem C4_witness :
    (applyLabel "B" spB).final_score = 0 ∧
    (applyLabel "C" spB).final_score = spB.final_score * (3/10) ∧
    (applyLabel "A" spB).final_score = min 1 (spB.final_score * (12/10)) ∧
    applyLabel "D" spB = spB :=
  ⟨((C4_label_effects "B" spB).2.1 rfl).1,
   ((C4_label_effects "C" spB).2.2.1 rfl).1,
   ((C4_label_effects "A" spB).1 rfl).1,
   (C4_label_effects "D" spB).2.2.2 (by decide) (by decide) (by decide)⟩

/-! ### Claim C5 -/

/-- Claim C5, as stated, is false: two rankers constructed with different
weights dicts produce identical outputs on a non-empty input — the stored
weights never reach the score computation, which uses the hardcoded
two-stage profile. -/
theorem C5_counterexample :
    equalWeightsRanker ≠ defaultRanker ∧
    HybridRanker.rank equalWeightsRanker testEnv [govCandidate] "t" false =
      HybridRanker.rank defaultRanker testEnv [govCandidate] "t" false ∧
    HybridRanker.rank defaultRanker testEnv [govCandidate] "t" false ≠ [] := by
  refine ⟨by decide, rfl, by decide⟩

/-- Claim C5 (amended): the default weights dict stored by `__init__` sums
to 1, but `rank` never reads the configured weights: its output is the
same for every weights configuration, the fused scores coming from the
hardcoded two-stage profile (0.7/0.3 then 0.6/0.4). -/
theorem C5_weights_unused (r₁ r₂ : HybridRanker) (env : RankEnv)
    (policies : List Candidate) (query : String) (fo : Bool) :
    (defaultWeights.map Prod.snd).sum = 1 ∧
    HybridRanker.rank r₁ env policies query fo =
      HybridRanker.rank r₂ env policies query fo := by
  constructor
  · simp only [defaultWeights, List.map_cons, List.map_nil, List.sum_cons, List.sum_nil,
      Rat.mkRat_eq_div]
    norm_num
  · rfl

/-! ### Claim C6 -/

/-- Claim C6 (confirmed): in the funnel stage every candidate's blended
triage score equals `0.7 * ((bm25 + semantic) / 2) + 0.3 * recency`, the
pool is sorted descending by that blended score, and it is truncated to
the top 15 (its length is `min 15` of the pool size). -/
theorem C6_funnel_stage (env : RankEnv) (query : String) (pool : List Candidate) :
    (funnelPool env query pool).length = min 15 pool.length ∧
    List.Sorted finalGE (funnelPool env query pool) ∧
    ∀ sp ∈ funnelPool env query pool,
      sp.final_score = 7/10 * ((sp.bm25_score + sp.semantic_score) / 2) +
        3/10 * sp.recency_score := by
  refine ⟨funnelPool_length env query pool, ?_, ?_⟩
  · exact List.Pairwise.sublist (List.take_sublist _ _) (sortByFinalDesc_sorted _)
  · intro sp h
    have hf := (mem_funnelPool h).2.2
    rw [hf, qAdd_eq, qMul_eq, qMul_eq, qDiv_eq, qAdd_eq, Rat.mkRat_eq_div,
      Rat.mkRat_eq_div]
    norm_num

/-! ### Claim C7 -/

/-- Claim C7 (confirmed): an empty candidate list yields an empty result; a
non-empty candidate list always yields a non-empty result (the embedding is
a total function, mirroring that data-quality issues — unparseable dates,
missing BM25 library, verifier garbage — are absorbed by defaults instead
of raising). -/
theorem C7_empty_nonempty (r : HybridRanker) (env : RankEnv)
    (policies : List Candidate) (query : String) (fo : Bool) :
    (policies = [] → HybridRanker.rank r env policies query fo = []) ∧
    (policies ≠ [] → HybridRanker.rank r env policies query fo ≠ []) := by
  constructor
  · intro h
    rw [h, HybridRanker.rank]
    rfl
  · exact rank_ne_nil

/-- Witness for C7: both directions at concrete inputs. -/
theorem C7_witness :
    HybridRanker.rank defaultRanker testEnv [] "q" false = [] ∧
    HybridRanker.rank defaultRanker testEnv [govCandidate] "t" false ≠ [] :=
  ⟨(C7_empty_nonempty defaultRanker testEnv [] "q" false).1 rfl,
   (C7_empty_nonempty defaultRanker testEnv [govCandidate] "t" false).2 (by decide)⟩

/-! ### Claim C8 -/

/-- Claim C8, as stated, is false: two candidates identical except for the
domain of their link, one on a government domain and one on a generic news
domain, where the shared source label contains a tier-1 institution name —
the government-domain candidate scores 0.9 from its domain base, while the
news-domain candidate falls through to the keyword-tier scan and scores
1.0, so the government-domain score is strictly smaller. -/
theorem C8_counterexample :
    c8Gov.title = c8News.title ∧ c8Gov.snippet = c8News.snippet ∧
    c8Gov.source = c8News.source ∧
    strContains c8Gov.link ".gov.cn" = true ∧
    NEWS_DOMAINS.any (fun d => strContains (toLowerStr c8News.link) d) = true ∧
    calcAuthority c8Gov < calcAuthority c8News := by
  refine ⟨rfl, rfl, rfl, by decide, by decide, by decide⟩

/-- Claim C8 (amended): for candidates identical except for the domain of
their link — the first on a `.gov.cn` domain whose path matches no
disclosure pattern, the second on a generic news domain (no government,
association or exchange domain marker) whose source+link text contains no
tier-1 institution keyword — the government-domain candidate's authority
score is at least the news-domain candidate's. -/
theorem C8_authority_monotone (c₁ c₂ : Candidate)
    (htitle : c₁.title = c₂.title) (hsnip : c₁.snippet = c₂.snippet)
    (hsrc : c₁.source = c₂.source)
    (hgov : strContains c₁.link ".gov.cn" = true)
    (hdisc : ∀ pat ∈ URL_DISCLOSURE_PATTERNS, strContains (toLowerStr c₁.link) pat = false)
    (hngov : strContains c₂.link ".gov.cn" = false)
    (hnorg : strContains c₂.link ".org.cn" = false)
    (hnexch : ∀ d ∈ EXCHANGE_DOMAINS, strContains c₂.link d = false)
    (hnews : NEWS_DOMAINS.any (fun d => strContains (toLowerStr c₂.link) d) = true)
    (htier1 : ∀ kw ∈ ["国务院", "中央", "全国人大", "国家发改委", "财政部"],
      strContains (toLowerStr (c₂.source ++ " " ++ c₂.link)) (toLowerStr kw) = false) :
    calcAuthority c₂ ≤ calcAuthority c₁ := by
  by_cases hveto2 : noiseVetoed c₂ = true
  · have h2 : calcAuthority c₂ = 0 := by
      simp only [calcAuthority]
      rw [if_pos hveto2]
    rw [h2]
    exact calcAuthority_nonneg c₁
  · have hhigh2 : isHighAuthDomain c₂.link = false := by
      rw [isHighAuthDomain, hngov, hnorg]
      rfl
    have hveto1 : ¬ (noiseVetoed c₁ = true) := by
      intro hv1
      apply hveto2
      simp only [noiseVetoed, List.any_eq_true] at hv1 ⊢
      obtain ⟨kw, hkw, hcond⟩ := hv1
      rw [Bool.and_eq_true] at hcond
      refine ⟨kw, hkw, ?_⟩
      rw [Bool.and_eq_true]
      have htext : toLowerStr (c₂.title ++ " " ++ c₂.snippet) =
          toLowerStr (c₁.title ++ " " ++ c₁.snippet) := by
        rw [htitle, hsnip]
      refine ⟨by rw [htext]; exact hcond.1, ?_⟩
      rw [hhigh2]
      rfl
    have h1ge : mkRat 9 10 ≤ calcAuthority c₁ := by
      simp only [calcAuthority]
      rw [if_neg hveto1]
      have hb1 : domainBase c₁.link = mkRat 9 10 := by
        rw [domainBase, if_pos hgov]
      rw [if_pos (by rw [hb1]; decide), hb1]
      simp only [pathAdjusted]
      have hdisc' : (URL_DISCLOSURE_PATTERNS.any fun pat =>
          strContains (toLowerStr c₁.link) pat) = false := by
        rw [List.any_eq_false]
        intro pat hpat
        simp [hdisc pat hpat]
      rw [if_neg (by rw [hdisc']; simp)]
      split
      · decide
      · decide
    have h2le : calcAuthority c₂ ≤ mkRat 9 10 := by
      simp only [calcAuthority]
      rw [if_neg hveto2]
      have hb2 : domainBase c₂.link = 0 := by
        have hexch : (EXCHANGE_DOMAINS.any fun d => strContains c₂.link d) = false := by
          rw [List.any_eq_false]
          intro d hd
          simp [hnexch d hd]
        rw [domainBase, hngov, hnorg]
        simp only [Bool.false_eq_true, if_false]
        rw [if_neg (by rw [hexch]; simp)]
      rw [if_neg (by rw [hb2]; decide)]
      cases hft : findTier (toLowerStr (c₂.source ++ " " ++ c₂.link)) with
      | none =>
        change (if (NEWS_DOMAINS.any fun d => strContains (toLowerStr c₂.link) d) = true
          then mkRat 1 10 else mkRat 3 10) ≤ mkRat 9 10
        split
        · decide
        · decide
      | some lv =>
        change tierScore lv.1 ≤ mkRat 9 10
        rw [findTier] at hft
        have hmem : lv ∈ AUTHORITY_LEVELS := List.mem_of_find?_eq_some hft
        have hpred0 := List.find?_some hft
        have hpred : lv.2.any (fun kw =>
            strContains (toLowerStr (c₂.source ++ " " ++ c₂.link)) (toLowerStr kw)) = true :=
          hpred0
        simp only [AUTHORITY_LEVELS, List.mem_cons, List.not_mem_nil, or_false] at hmem
        rcases hmem with rfl | rfl | rfl | rfl | rfl | rfl | rfl | rfl
        · rw [List.any_eq_true] at hpred
          obtain ⟨kw, hkwmem, hkwmatch⟩ := hpred
          rw [htier1 kw hkwmem] at hkwmatch
          exact absurd hkwmatch (by simp)
        all_goals decide
    exact le_trans h2le h1ge

/-- Witness for C8: the amended monotonicity theorem at a concrete pair —
a clean government regulation link against the same hit on a news domain
with an empty source label. -/
theorem C8_witness :
    calcAuthority (noisyCandidate "https://eastmoney.com/a") ≤ calcAuthority govCandidate ∨
    calcAuthority { govCandidate with link := "https://eastmoney.com/a" } ≤
      calcAuthority govCandidate :=
  Or.inr (C8_authority_monotone govCandidate
    { govCandidate with link := "https://eastmoney.com/a" }
    rfl rfl rfl (by decide) (by decide) (by decide) (by decide) (by decide) (by decide)
    (by decide))

/-! ### Claim C9 -/

/-- Claim C9 (confirmed): (1) a candidate whose lowercased title+snippet
contains a configured noise keyword receives authority 0, unless the link
is on a high-trust domain (`.gov.cn`/`.org.cn`) and the keyword is outside
the critical list, in which case that keyword's veto is skipped; (2) the
waiver really skips the veto: a candidate on a high-trust domain whose
text matches no critical noise keyword (so every matched noise keyword,
such as a prospectus term, is on the secondary list) keeps a strictly
positive authority score; (3) in every `rank` result, an entry that is not
a backfill entry records a strictly positive authority score — so a vetoed
candidate (authority 0) can only ever appear as a backfill entry. -/
theorem C9_noise_veto :
    (∀ p : Candidate,
      (∃ kw ∈ NOISE_KEYWORDS,
        strContains (toLowerStr (p.title ++ " " ++ p.snippet)) (toLowerStr kw) = true ∧
        (isHighAuthDomain p.link = false ∨ kw ∈ CRITICAL_NOISE)) →
      calcAuthority p = 0) ∧
    (∀ p : Candidate, isHighAuthDomain p.link = true →
      (∀ kw ∈ CRITICAL_NOISE,
        strContains (toLowerStr (p.title ++ " " ++ p.snippet)) (toLowerStr kw) = false) →
      0 < calcAuthority p) ∧
    (∀ (r : HybridRanker) (env : RankEnv) (policies : List Candidate) (query : String)
      (fo : Bool),
      (HybridRanker.rank r env policies query fo).Forall fun e =>
        e.scores.lookup "note" = some (ScoreVal.str "backfill") ∨
        ∃ a, e.scores.lookup "authority" = some (ScoreVal.num a) ∧ 0 < a) := by
  refine ⟨?_, ?_, ?_⟩
  · intro p ⟨kw, hkw, hmatch, hcond⟩
    simp only [calcAuthority]
    rw [if_pos]
    simp only [noiseVetoed, List.any_eq_true]
    refine ⟨kw, hkw, ?_⟩
    rw [Bool.and_eq_true]
    refine ⟨hmatch, ?_⟩
    rcases hcond with h | h
    · rw [h]
      rfl
    · have hcont : CRITICAL_NOISE.contains kw = true := by simpa using h
      rw [hcont]
      simp
  · intro p hhigh hcrit
    exact calcAuthority_pos_of_not_vetoed (noiseVetoed_false_of_waiver hhigh hcrit)
  · intro r env policies query fo
    rw [List.forall_iff_forall_mem]
    intro e he
    rcases mem_rank he with ⟨sp, hsp, rfl, hpos, _⟩ | ⟨sp, _, rfl⟩
    · right
      refine ⟨round3 sp.authority_score, mkMainEntry_lookup_authority sp, ?_⟩
      exact round3_pos_of_mem (rankCandidates_authority_mem hsp) (ne_of_gt hpos)
    · left
      exact mkBackfillEntry_lookup_note sp

/-- Witness for C9: the veto at a concrete non-high-trust prospectus hit,
and the waiver at the same prospectus hit moved to a government domain
(the secondary keyword 招股书 matches but the authority stays positive). -/
theorem C9_witness :
    ((∃ kw ∈ NOISE_KEYWORDS,
      strContains (toLowerStr ((noisyCandidate "http://x1.com/a").title ++ " " ++
        (noisyCandidate "http://x1.com/a").snippet)) (toLowerStr kw) = true ∧
      (isHighAuthDomain (noisyCandidate "http://x1.com/a").link = false ∨
        kw ∈ CRITICAL_NOISE)) ∧
    calcAuthority (noisyCandidate "http://x1.com/a") = 0) ∧
    (isHighAuthDomain (noisyCandidate "https://a.gov.cn/x").link = true ∧
      strContains (toLowerStr ((noisyCandidate "https://a.gov.cn/x").title ++ " " ++
        (noisyCandidate "https://a.gov.cn/x").snippet)) (toLowerStr "招股书") = true ∧
      0 < calcAuthority (noisyCandidate "https://a.gov.cn/x")) :=
  ⟨⟨by decide, C9_noise_veto.1 (noisyCandidate "http://x1.com/a") (by decide)⟩,
   by decide, by decide,
   C9_noise_veto.2.1 (noisyCandidate "https://a.gov.cn/x") (by decide) (by decide)⟩

/-! ### Claim C10 -/

/-- Claim C10 (confirmed): every entry of the returned list carries,
unmodified, the candidate fields of one of the input dictionaries (the
`_scores` breakdown lives in a separate field of the copy); `rank` is a
pure function of its input list, so no caller-owned dictionary is ever
written to. -/
theorem C10_entries_are_input_copies (r : HybridRanker) (env : RankEnv)
    (policies : List Candidate) (query : String) (fo : Bool) :
    (HybridRanker.rank r env policies query fo).Forall fun e => e.policy ∈ policies := by
  rw [List.forall_iff_forall_mem]
  intro e he
  rcases mem_rank he with ⟨sp, hsp, rfl, _, _⟩ | ⟨sp, hsp, rfl⟩
  · exact (mem_rankCandidates hsp).1
  · exact (mem_rankCandidates hsp).1

end PolicyAnalyzer
